import Mathlib

/-!
Verification of the kawatte repository: a recursive, filtered, multi-pattern
find-and-replace tool.  The development embeds, as executable Lean functions,

* the replacement engine the tool builds in loadSubstitutions (a model of
  Go strings.NewReplacer / Replace, the generic trie replacer of
  strings/replace.go: a single left-to-right scan that at each position applies
  the earliest-listed pair whose old pattern is a prefix of the remaining
  input, with empty matches suppressed immediately after an empty match),
* the glob matcher (a model of path/filepath.Match for base names, which never
  contain a path separator),
* the filtered tree walk walkDir,
* the per-file processing processFile in its two variants, and the Exec loop,
* the flag-handler state updates of ParseArgs.

File contents, paths, and I/O outcomes are explicit data; file-system effects
are reified as an event trace so that frame properties (what was read,
written, printed, and with which permission argument) are provable.
-/

namespace Kawatte

/-- A substitution pair at the character-list level: old pattern and new text. -/
abbrev Pat := List Char × List Char

/-- A pair is a candidate at the current position when its old pattern is a
prefix of the remaining input; when ignoreEmpty is set (immediately after an
empty match), a pair with an empty old pattern is not a candidate, mirroring
the ignoreRoot flag of genericReplacer.lookup in Go's strings/replace.go. -/
def matchPred (rest : List Char) (ignoreEmpty : Bool) (p : Pat) : Bool :=
  p.1.isPrefixOf rest && !(ignoreEmpty && p.1.isEmpty)

/-- Lookup step of the replacer, modelling genericReplacer.lookup in Go's
strings/replace.go: among the pairs whose old pattern is a prefix of the
remaining input, the one listed earliest wins (the trie stores the first
occurrence of each old pattern with a priority that decreases along the
argument list, and lookup keeps the best priority). -/
def findMatch (pairs : List Pat) (rest : List Char) (ignoreEmpty : Bool) : Option Pat :=
  pairs.find? (matchPred rest ignoreEmpty)

/-- Fueled scan loop, modelling genericReplacer.Replace from strings/replace.go:
at each position look up the earliest-listed matching pair; on a match emit its
new text and resume after the consumed input (never re-scanning the output); an
empty match emits its new text, and the immediately following lookup at the
same position ignores the empty pattern (prevMatchEmpty in Go); if no pair
matches, the character is copied unchanged.  One unit of fuel is spent per
step; every step past the first consumes at least one input character, so fuel
equal to the input length is always sufficient (scanFuel_fuel_irrel below). -/
def scanFuel (pairs : List Pat) : Nat → List Char → List Char
  | _, [] =>
    match findMatch pairs [] false with
    | some p => p.2
    | none => []
  | 0, _ :: _ => []
  | f+1, c :: rest =>
    match findMatch pairs (c :: rest) false with
    | none => c :: scanFuel pairs f rest
    | some p =>
      if p.1.isEmpty then
        match findMatch pairs (c :: rest) true with
        | none => p.2 ++ c :: scanFuel pairs f rest
        | some q => p.2 ++ q.2 ++ scanFuel pairs f (List.drop q.1.length (c :: rest))
      else
        p.2 ++ scanFuel pairs f (List.drop p.1.length (c :: rest))

/-- The single simultaneous left-to-right scan over a character list. -/
def scanChars (pairs : List Pat) (s : List Char) : List Char :=
  scanFuel pairs s.length s

/-- Model of strings.NewReplacer(old1, new1, old2, new2, ...).Replace(s) for
the pair list built by loadSubstitutions, which appends record[0], record[1]
for each CSV record in order. -/
def goReplace (pairs : List (String × String)) (s : String) : String :=
  ⟨scanChars (pairs.map fun p => (p.1.data, p.2.data)) s.data⟩

example : goReplace [("a", "b"), ("b", "c"), ("c", "a")] "abcdef" = "bcadef" := by decide
example : goReplace [("a", "b"), ("b", "c"), ("c", "a")] "a" = "b" := by decide
example : goReplace [("ab", "X"), ("a", "Y")] "ab" = "X" := by decide
example : goReplace [("a", "Y"), ("ab", "X")] "ab" = "Yb" := by decide
example : goReplace [("a", "X"), ("a", "Y")] "a" = "X" := by decide
example : goReplace [("", "X")] "a" = "XaX" := by decide
example : goReplace [] "abc" = "abc" := by decide

/-- A pair returned by the lookup that ignores empty patterns has a non-empty
old pattern. -/
theorem findMatch_ignore_not_empty {pairs : List Pat} {rest : List Char} {q : Pat}
    (h : findMatch pairs rest true = some q) : q.1 ≠ [] := by
  have hq := List.find?_some h
  intro hnil
  simp [matchPred, hnil] at hq

/-- The scan result does not depend on the fuel as long as the fuel is at
least the input length. -/
theorem scanFuel_fuel_irrel (pairs : List Pat) :
    ∀ (f₁ f₂ : Nat) (s : List Char), s.length ≤ f₁ → s.length ≤ f₂ →
      scanFuel pairs f₁ s = scanFuel pairs f₂ s := by
  intro f₁
  induction f₁ with
  | zero =>
    intro f₂ s h1 _
    have hs : s = [] := List.eq_nil_of_length_eq_zero (Nat.le_zero.mp h1)
    subst hs
    cases f₂ <;> rfl
  | succ f ih =>
    intro f₂ s h1 h2
    cases s with
    | nil => cases f₂ <;> rfl
    | cons c rest =>
      cases f₂ with
      | zero => exact absurd h2 (by simp)
      | succ g =>
        have hr : rest.length ≤ f := by simpa using h1
        have hg : rest.length ≤ g := by simpa using h2
        simp only [scanFuel]
        cases hm : findMatch pairs (c :: rest) false with
        | none => rw [ih g rest hr hg]
        | some p =>
          dsimp only
          by_cases hp : p.1.isEmpty
          · rw [if_pos hp, if_pos hp]
            cases hq : findMatch pairs (c :: rest) true with
            | none => rw [ih g rest hr hg]
            | some q =>
              dsimp only
              have hq1 : 1 ≤ q.1.length := by
                have := findMatch_ignore_not_empty hq
                have := List.length_pos.mpr this
                omega
              have hd1 : (List.drop q.1.length (c :: rest)).length ≤ f := by
                simp only [List.length_drop, List.length_cons]
                omega
              have hd2 : (List.drop q.1.length (c :: rest)).length ≤ g := by
                simp only [List.length_drop, List.length_cons]
                omega
              rw [ih g _ hd1 hd2]
          · rw [if_neg hp, if_neg hp]
            have hp1 : 1 ≤ p.1.length := by
              have hne : p.1 ≠ [] := by
                intro hnil
                exact hp (by simp [hnil])
              have := List.length_pos.mpr hne
              omega
            have hd1 : (List.drop p.1.length (c :: rest)).length ≤ f := by
              simp only [List.length_drop, List.length_cons]
              omega
            have hd2 : (List.drop p.1.length (c :: rest)).length ≤ g := by
              simp only [List.length_drop, List.length_cons]
              omega
            rw [ih g _ hd1 hd2]

/-- Lookup ignores a later duplicate of an old pattern: the pair listed first
governs, exactly as the Go trie keeps only the first value added for a key. -/
theorem findMatch_dup (o n₁ n₂ : List Char) (pairs : List Pat) (rest : List Char) (ig : Bool) :
    findMatch ((o, n₁) :: (o, n₂) :: pairs) rest ig = findMatch ((o, n₁) :: pairs) rest ig := by
  have hsame : matchPred rest ig (o, n₂) = matchPred rest ig (o, n₁) := rfl
  unfold findMatch
  by_cases h : matchPred rest ig (o, n₁) = true
  · simp [List.find?, h, hsame]
  · have h' := eq_false_of_ne_true h
    simp [List.find?, h', hsame]

/-- A later duplicate of an old pattern is unreachable: the whole scan behaves
as if the duplicate pair were absent, at every fuel and input. -/
theorem scanFuel_dup (o n₁ n₂ : List Char) (pairs : List Pat) (f : Nat) (s : List Char) :
    scanFuel ((o, n₁) :: (o, n₂) :: pairs) f s = scanFuel ((o, n₁) :: pairs) f s := by
  induction f generalizing s with
  | zero =>
    cases s with
    | nil => simp only [scanFuel, findMatch_dup]
    | cons c rest => rfl
  | succ f ih =>
    cases s with
    | nil => simp only [scanFuel, findMatch_dup]
    | cons c rest =>
      simp only [scanFuel, findMatch_dup]
      cases hm : findMatch ((o, n₁) :: pairs) (c :: rest) false with
      | none => rw [ih]
      | some p =>
        dsimp only
        by_cases hp : p.1.isEmpty
        · rw [if_pos hp, if_pos hp]
          cases hq : findMatch ((o, n₁) :: pairs) (c :: rest) true with
          | none => rw [ih]
          | some q =>
            dsimp only
            rw [ih]
        · rw [if_neg hp, if_neg hp, ih]

/-- When the first pair's old pattern is non-empty and matches at the current
position, the scan emits its new text and resumes after the consumed input,
regardless of any later pairs (the earliest-listed match wins). -/
theorem scanChars_head_step (o n : List Char) (pairs : List Pat) (s : List Char)
    (ho : o ≠ []) (hpre : o.isPrefixOf s = true) :
    scanChars ((o, n) :: pairs) s = n ++ scanChars ((o, n) :: pairs) (s.drop o.length) := by
  cases s with
  | nil =>
    have : o = [] := by
      have := List.isPrefixOf_iff_prefix.mp hpre
      simpa using this
    exact absurd this ho
  | cons c rest =>
    have hoe : o.isEmpty = false := by
      cases o with
      | nil => exact absurd rfl ho
      | cons a l => rfl
    have hpred : matchPred (c :: rest) false (o, n) = true := by
      simp [matchPred, hpre]
    have hm : findMatch ((o, n) :: pairs) (c :: rest) false = some (o, n) := by
      unfold findMatch
      simp [List.find?, hpred]
    have ho1 : 1 ≤ o.length := by
      have := List.length_pos.mpr ho
      omega
    unfold scanChars
    simp only [List.length_cons, scanFuel, hm, hoe, Bool.false_eq_true, if_false]
    congr 1
    apply scanFuel_fuel_irrel
    · simp only [List.length_drop, List.length_cons]
      omega
    · exact Nat.le_refl _

/-- A single pair with an empty old pattern inserts its new text at every
position of the input, once per position, including after the last character,
and the scan terminates: the result interleaves the new text between all
characters. -/
theorem scanChars_single_empty (new : List Char) (s : List Char) :
    scanChars [([], new)] s = new ++ (s.map fun c => c :: new).flatten := by
  induction s with
  | nil => simp [scanChars, scanFuel, findMatch, List.find?, matchPred, List.isPrefixOf]
  | cons c rest ih =>
    have hp1 : matchPred (c :: rest) false ([], new) = true := by
      simp [matchPred, List.isPrefixOf]
    have hp2 : matchPred (c :: rest) true ([], new) = false := by
      simp [matchPred, List.isPrefixOf]
    have hm : findMatch [([], new)] (c :: rest) false = some ([], new) := by
      unfold findMatch
      simp [List.find?, hp1]
    have hm2 : findMatch [([], new)] (c :: rest) true = none := by
      unfold findMatch
      simp [List.find?, hp2]
    unfold scanChars at ih ⊢
    simp only [List.length_cons, scanFuel, hm, hm2, List.isEmpty_nil, if_true]
    rw [ih]
    simp

/-- Parsed glob pattern tokens: a star (any character sequence), a question
mark (any single character), a literal character, or a character class with
optional negation and a list of inclusive ranges. -/
inductive GlobTok where
  | star
  | qmark
  | lit (c : Char)
  | cls (negated : Bool) (ranges : List (Char × Char))

/-- A character is inside one of the inclusive ranges of a class. -/
def rangesMatch (ranges : List (Char × Char)) (c : Char) : Bool :=
  ranges.any fun r => decide (r.1 ≤ c) && decide (c ≤ r.2)

/-- Token-level glob matching, modelling the chunk matching loop of
path/filepath.Match for names that contain no path separator (walkDir only
ever matches against base names): a star matches any sequence of characters
(Go tries every split, which is exactly a search over the tails of the
remaining name), the other tokens consume one character. -/
def tokMatch : List GlobTok → List Char → Bool
  | [], s => s.isEmpty
  | .star :: ps, s => s.tails.any fun t => tokMatch ps t
  | .qmark :: _, [] => false
  | .qmark :: ps, _ :: s => tokMatch ps s
  | .lit _ :: _, [] => false
  | .lit c :: ps, d :: s => c == d && tokMatch ps s
  | .cls _ _ :: _, [] => false
  | .cls neg rs :: ps, d :: s => (rangesMatch rs d != neg) && tokMatch ps s

/-- Parse the body of a character class, mirroring the class loop and getEsc
of path/filepath/match.go: a range endpoint may not be an unescaped dash or
close-bracket, a backslash escapes the next character, an endpoint followed by
a dash takes a high endpoint, and the class closes at a close-bracket only
after at least one range; a malformed class yields none (ErrBadPattern in Go).
Fuel decreases once per range; every range consumes at least one character, so
fuel larger than the input length always suffices. -/
def parseClassBody : Nat → List Char → List (Char × Char) → Option (List (Char × Char) × List Char)
  | 0, _, _ => none
  | _+1, [], _ => none
  | _+1, ']' :: rest, acc => if acc.isEmpty then none else some (acc.reverse, rest)
  | _+1, '-' :: _, _ => none
  | f+1, c :: rest, acc =>
    match (if c == '\\' then (match rest with | [] => none | d :: r => some (d, r)) else some (c, rest)) with
    | none => none
    | some (lo, r1) =>
      match r1 with
      | '-' :: ']' :: _ => none
      | '-' :: [] => none
      | '-' :: '-' :: _ => none
      | '-' :: e :: r2 =>
        match (if e == '\\' then (match r2 with | [] => none | d :: r => some (d, r)) else some (e, r2)) with
        | none => none
        | some (hi, r3) => parseClassBody f r3 ((lo, hi) :: acc)
      | _ => parseClassBody f r1 ((lo, lo) :: acc)

/-- Tokenize a glob pattern, mirroring scanChunk/matchChunk of
path/filepath/match.go: star, question mark, backslash escapes, character
classes introduced by an open bracket with optional caret negation, and
literal characters; a malformed pattern (trailing backslash, malformed class)
yields none.  Fuel decreases once per token; every token consumes at least one
character. -/
def parseGlobAux : Nat → List Char → Option (List GlobTok)
  | 0, _ :: _ => none
  | _, [] => some []
  | f+1, '*' :: rest => (parseGlobAux f rest).map fun ts => .star :: ts
  | f+1, '?' :: rest => (parseGlobAux f rest).map fun ts => .qmark :: ts
  | _+1, '\\' :: [] => none
  | f+1, '\\' :: c :: rest => (parseGlobAux f rest).map fun ts => .lit c :: ts
  | f+1, '[' :: '^' :: body =>
    match parseClassBody (body.length + 1) body [] with
    | none => none
    | some (rs, rest2) => (parseGlobAux f rest2).map fun ts => .cls true rs :: ts
  | f+1, '[' :: body =>
    match parseClassBody (body.length + 1) body [] with
    | none => none
    | some (rs, rest2) => (parseGlobAux f rest2).map fun ts => .cls false rs :: ts
  | f+1, c :: rest => (parseGlobAux f rest).map fun ts => .lit c :: ts

/-- Tokenize a glob pattern string. -/
def parseGlob (pat : String) : Option (List GlobTok) :=
  parseGlobAux (pat.data.length + 1) pat.data

/-- Model of path/filepath.Match(pattern, name) as used by walkDir: the error
return is discarded there (matched, _ := filepath.Match(...)), and Go reports
matched == false whenever the pattern is malformed, so a malformed pattern
simply never matches. -/
def globMatch (pat name : String) : Bool :=
  match parseGlob pat with
  | none => false
  | some toks => tokMatch toks name.data

/-- The glob loops of walkDir: a name is accepted when any glob of the list
matches it. -/
def matchAny (globs : List String) (name : String) : Bool :=
  globs.any fun g => globMatch g name

example : globMatch "*" "anything" = true := by decide
example : globMatch "*" "" = true := by decide
example : globMatch ".*" ".hidden" = true := by decide
example : globMatch ".*" "a.txt" = false := by decide
example : globMatch "tmp" "tmp" = true := by decide
example : globMatch "tmp" "tmp2" = false := by decide
example : globMatch "*.txt" "a.txt" = true := by decide
example : globMatch "*.txt" "a.txc" = false := by decide
example : globMatch "a[b-d]e" "ace" = true := by decide
example : globMatch "a[b-d]e" "aze" = false := by decide
example : globMatch "a[^b-d]e" "aze" = true := by decide
example : globMatch "[" "x" = false := by decide
example : globMatch "?x" "ax" = true := by decide

/-- A file tree entry as seen by the walk: a file, or a directory with its
children in directory-listing order (filepath.WalkDir and filepath.Walk both
visit entries sorted by name; the model takes the children in that order). -/
inductive FTree where
  | file (name : String)
  | dir (name : String) (children : List FTree)

/-- Base name of an entry, what entry.Name() returns in the walk callback. -/
def FTree.name : FTree → String
  | .file n => n
  | .dir n _ => n

/-- The four glob lists of the tool, the corresponding fields of appEnv. -/
structure Filters where
  incFile : List String
  exFile : List String
  incDir : List String
  exDir : List String
deriving DecidableEq

/-- The defaults ParseArgs installs into every list left empty. -/
def defaultFilters : Filters :=
  { incFile := ["*"], exFile := [".*"], incDir := ["*"], exDir := [".*"] }

/-- Path join as filepath.Join behaves on the cleaned paths the walk produces:
joining a name onto the starting directory "." yields the bare name
(filepath.Join cleans its result), otherwise parent/name. -/
def joinPath (parent name : String) : String :=
  if parent == "." then name else parent ++ "/" ++ name

mutual

/-- The walk callback of walkDir applied to one entry whose joined path is
path, together with the recursive descent filepath.WalkDir performs when the
callback returns nil on a directory.  Mirrors walkDir in replaceall.go: a
directory whose path equals "." is descended without any filtering; any other
directory has its base name tested against the exclude-dir globs (a match
returns filepath.SkipDir, pruning the whole subtree) and then against the
include-dir globs (no match also prunes); a file has its base name tested
against the exclude-file globs (a match skips it) and then against the
include-file globs (a match appends its path to the selection). -/
def visit (fl : Filters) (path : String) : FTree → List String
  | .file n =>
    if matchAny fl.exFile n then []
    else if matchAny fl.incFile n then [path]
    else []
  | .dir n ch =>
    if path == "." then visitList fl path ch
    else if matchAny fl.exDir n then []
    else if matchAny fl.incDir n then visitList fl path ch
    else []

/-- Visit the children of a descended directory whose joined path is base. -/
def visitList (fl : Filters) (base : String) : List FTree → List String
  | [] => []
  | t :: ts => visit fl (joinPath base t.name) t ++ visitList fl base ts

end

/-- Model of app.walkDir(): filepath.WalkDir(app.dir, ...) visits the root
entry first with path equal to the -dir argument, and the callback treats it
like any other entry (in particular, the unconditional descent applies only
when its path is the literal "."). -/
def walkDirGo (fl : Filters) (rootPath : String) (root : FTree) : List String :=
  visit fl rootPath root

/-- Observable I/O events of a run: file reads, permission stats, file writes
carrying the content and the permission argument passed to os.WriteFile, and
dry-run report lines printed to standard output. -/
inductive Ev where
  | read (path : String)
  | stat (path : String)
  | write (path : String) (content : String) (perm : Nat)
  | print (path : String)
deriving DecidableEq

/-- Whether an event writes a file. -/
def Ev.isWrite : Ev → Bool
  | .write _ _ _ => true
  | _ => false

/-- One file of the model file system: its content and permission mode, and
whether each I/O operation on it fails. -/
structure MFile where
  content : String
  mode : Nat
  readErr : Bool
  writeErr : Bool
  statErr : Bool
deriving DecidableEq

/-- Model of processFile in replaceall.go: read the file (a failure aborts
with an error), apply the replacer to the content; in dry-run mode print the
path exactly when the content changed, and write nothing; otherwise write the
new content back passing the fixed permission argument 0o644 to os.WriteFile
(a failure aborts with an error).  The first component is the trace of I/O
events, the second the error returned. -/
def processFileA (dryRun : Bool) (pairs : List (String × String)) (path : String) (f : MFile) :
    List Ev × Option String :=
  if f.readErr then ([.read path], some ("processFile(" ++ path ++ "): reading"))
  else
    let newContent := goReplace pairs f.content
    if dryRun then
      ([.read path] ++ (if f.content != newContent then [.print path] else []), none)
    else
      ([.read path, .write path newContent 0o644],
        if f.writeErr then some ("processFile(" ++ path ++ "): writing") else none)

/-- Model of the processFile variant of the other source file: identical
reading, replacement and dry-run behaviour, but before writing it stats the
original file (a failure aborts with an error) and passes the stat mode as the
permission argument of os.WriteFile instead of the fixed 0o644. -/
def processFileB (dryRun : Bool) (pairs : List (String × String)) (path : String) (f : MFile) :
    List Ev × Option String :=
  if f.readErr then ([.read path], some ("processFile(" ++ path ++ "): reading"))
  else
    let newContent := goReplace pairs f.content
    if dryRun then
      ([.read path] ++ (if f.content != newContent then [.print path] else []), none)
    else if f.statErr then
      ([.read path, .stat path], some ("processFile(" ++ path ++ "): stating"))
    else
      ([.read path, .stat path, .write path newContent f.mode],
        if f.writeErr then some ("processFile(" ++ path ++ "): writing") else none)

/-- The processing loop of Exec: process the selected files in order,
returning at the first error. -/
def runFiles (dryRun : Bool) (pairs : List (String × String)) :
    List (String × MFile) → List Ev × Option String
  | [] => ([], none)
  | (path, f) :: rest =>
    match (processFileA dryRun pairs path f).2 with
    | some e => ((processFileA dryRun pairs path f).1, some e)
    | none =>
      ((processFileA dryRun pairs path f).1 ++ (runFiles dryRun pairs rest).1,
        (runFiles dryRun pairs rest).2)

/-- Model of Exec in replaceall.go: load the substitutions — an error returns
immediately, before any tree walking or file processing — then walk the tree
to select the paths and process each selected path in order, stopping at the
first error.  subs is the outcome of loadSubstitutions (an open or CSV error,
or the ordered pair list of the CSV records), and fs gives the state of the
file found at each selected path. -/
def execGo (subs : Except String (List (String × String))) (dryRun : Bool)
    (fl : Filters) (rootPath : String) (root : FTree) (fs : String → MFile) :
    List Ev × Option String :=
  match subs with
  | .error e => ([], some e)
  | .ok pairs =>
    runFiles dryRun pairs ((walkDirGo fl rootPath root).map fun p => (p, fs p))

/-- One invocation of a glob-flag handler during argument parsing (fl.Parse
and flagx.ParseEnv both invoke the registered handlers). -/
inductive FlagEv where
  | matchFile (glob : String)
  | excludeFile (glob : String)
  | matchDir (glob : String)
  | excludeDir (glob : String)

/-- The four flag handlers of ParseArgs, exactly as written in both source
variants: the -match handler appends the glob to incFile; the -exclude
handler evaluates append(app.exFile, glob) but assigns the result to
app.incFile; the -match-dir handler appends to incFile instead of incDir; the
-exclude-dir handler likewise assigns append(app.exFile, glob) to incFile. -/
def applyFlag (st : Filters) : FlagEv → Filters
  | .matchFile g => { st with incFile := st.incFile ++ [g] }
  | .excludeFile g => { st with incFile := st.exFile ++ [g] }
  | .matchDir g => { st with incFile := st.incFile ++ [g] }
  | .excludeDir g => { st with incFile := st.exFile ++ [g] }

/-- The default fill at the end of ParseArgs: every list still empty receives
its default. -/
def fillDefaults (st : Filters) : Filters :=
  { incFile := if st.incFile.isEmpty then ["*"] else st.incFile,
    exFile := if st.exFile.isEmpty then [".*"] else st.exFile,
    incDir := if st.incDir.isEmpty then ["*"] else st.incDir,
    exDir := if st.exDir.isEmpty then [".*"] else st.exDir }

/-- The glob lists a successful ParseArgs leaves in appEnv, as a function of
the sequence of glob-flag handler invocations: all four lists start as the
zero value of the struct (empty), the handlers run in order, and the defaults
are filled in at the end. -/
def parseArgsGlobLists (evs : List FlagEv) : Filters :=
  fillDefaults (evs.foldl applyFlag ⟨[], [], [], []⟩)

example :
    walkDirGo defaultFilters "."
      (.dir "." [.file ".hidden", .file "a.txt", .dir "sub" [.dir ".git" [.file "config"]]]) =
      ["a.txt"] := by decide

example :
    walkDirGo defaultFilters ".hidden" (.dir ".hidden" [.file "a.txt"]) = [] := by decide

example :
    walkDirGo { defaultFilters with incDir := ["*"], exDir := ["tmp"] } "."
      (.dir "." [.dir "tmp" [.file "a.txt"]]) = [] := by decide

example :
    parseArgsGlobLists [.excludeFile "*.bak", .matchDir "src", .excludeDir "tmp"] =
      { incFile := ["tmp"], exFile := [".*"], incDir := ["*"], exDir := [".*"] } := by decide

/-- C2: the replacement is a single simultaneous pass whose output is never
re-scanned: for the cycle pairs (a→b, b→c, c→a), the replacer applied once to
"a" yields "b" (not "c"), applied to "abcdef" yields "bcadef", and a
non-dry-run processFile on a file containing "abcdef" writes "bcadef". -/
theorem C2_single_pass_cycle :
    goReplace [("a", "b"), ("b", "c"), ("c", "a")] "a" = "b" ∧
    goReplace [("a", "b"), ("b", "c"), ("c", "a")] "abcdef" = "bcadef" ∧
    processFileA false [("a", "b"), ("b", "c"), ("c", "a")] "in.txt"
        ⟨"abcdef", 0o644, false, false, false⟩ =
      ([.read "in.txt", .write "in.txt" "bcadef" 0o644], none) := by
  decide

/-- C5: when several old patterns of equal length match at the same position
they are necessarily the same pattern (a prefix of a given length is unique),
and for a duplicated old pattern the pair listed first governs the whole scan
— the later duplicate is unreachable at every fuel and input; in particular
the replacer built from [("a","X"), ("a","Y")] applied to "a" yields "X". -/
theorem C5_tie_break_by_order :
    (∀ (o₁ o₂ s : List Char), o₁.length = o₂.length →
        o₁.isPrefixOf s = true → o₂.isPrefixOf s = true → o₁ = o₂) ∧
    (∀ (o n₁ n₂ : List Char) (pairs : List Pat) (f : Nat) (s : List Char),
        scanFuel ((o, n₁) :: (o, n₂) :: pairs) f s = scanFuel ((o, n₁) :: pairs) f s) ∧
    goReplace [("a", "X"), ("a", "Y")] "a" = "X" := by
  refine ⟨?_, scanFuel_dup, by decide⟩
  intro o₁ o₂ s hlen h1 h2
  have p1 := List.isPrefixOf_iff_prefix.mp h1
  have p2 := List.isPrefixOf_iff_prefix.mp h2
  have hpre : o₁ <+: o₂ := List.prefix_of_prefix_length_le p1 p2 (le_of_eq hlen)
  exact List.IsPrefix.eq_of_length hpre hlen

/-- Witness for C5 at concrete inputs. -/
theorem C5_tie_break_by_order_witness :
    ("ab".data.length = "ab".data.length ∧ "ab".data.isPrefixOf "abc".data = true ∧
      "ab".data = "ab".data) ∧
    scanFuel [("a".data, "X".data), ("a".data, "Y".data)] 1 "a".data =
      scanFuel [("a".data, "X".data)] 1 "a".data :=
  ⟨⟨rfl, by decide,
      C5_tie_break_by_order.1 "ab".data "ab".data "abc".data rfl (by decide) (by decide)⟩,
    C5_tie_break_by_order.2.1 "a".data "X".data "Y".data [] 1 "a".data⟩

/-- C6 counterexample: a pair with an empty old pattern is neither rejected
nor inert — the replacer inserts its new string at zero-width positions, so
the output differs from the input. -/
theorem C6_counterexample :
    goReplace [("", "X")] "a" = "XaX" ∧ goReplace [("", "X")] "a" ≠ "a" := by decide

/-- C6 amended: building the replacer from a pair with an empty old pattern
is accepted, and applying it always terminates (the scan is a total function),
but the pair does match: its new string is inserted exactly once at every
zero-width position — before each input character and after the last one. -/
theorem C6_empty_old_inserts :
    (∀ (new s : List Char),
        scanChars [([], new)] s = new ++ (s.map fun c => c :: new).flatten) ∧
    goReplace [("", "X")] "ab" = "XaXbX" :=
  ⟨scanChars_single_empty, by decide⟩

/-- C1 counterexample: with the pair list [("a","Y"), ("ab","X")] — the same
two pairs of the claim, listed in the other order — the replacer applied to
"ab" yields "Yb", not "X": the longest matching old pattern at a position is
not what is replaced. -/
theorem C1_counterexample :
    goReplace [("a", "Y"), ("ab", "X")] "ab" = "Yb" ∧
    goReplace [("a", "Y"), ("ab", "X")] "ab" ≠ "X" := by decide

/-- C1 amended: the replacer scans left to right and, at each input position
where at least one old pattern matches, replaces the earliest-listed matching
old pattern (argument order, not the longest match): a head pair with a
non-empty matching old pattern is applied regardless of any later pairs, and
the scan resumes after the consumed input; for the pairs in the order
[("ab","X"), ("a","Y")] applying to "ab" yields "X", while for the reversed
order it yields "Yb". -/
theorem C1_earliest_match (o n : List Char) (pairs : List Pat) (s : List Char)
    (ho : o ≠ []) (hpre : o.isPrefixOf s = true) :
    scanChars ((o, n) :: pairs) s = n ++ scanChars ((o, n) :: pairs) (s.drop o.length) ∧
    goReplace [("ab", "X"), ("a", "Y")] "ab" = "X" ∧
    goReplace [("a", "Y"), ("ab", "X")] "ab" = "Yb" :=
  ⟨scanChars_head_step o n pairs s ho hpre, by decide, by decide⟩

/-- Witness for C1 at concrete inputs: the pair ("a","Y") listed first wins at
the start of "ab" even though the later ("ab","X") also matches and is longer. -/
theorem C1_earliest_match_witness :
    "a".data ≠ [] ∧ "a".data.isPrefixOf "ab".data = true ∧
    scanChars [("a".data, "Y".data), ("ab".data, "X".data)] "ab".data =
      "Y".data ++ scanChars [("a".data, "Y".data), ("ab".data, "X".data)]
        ("ab".data.drop "a".data.length) :=
  ⟨by decide, by decide,
    (C1_earliest_match "a".data "Y".data [("ab".data, "X".data)] "ab".data
      (by decide) (by decide)).1⟩

/-- The flag handlers never assign to exFile, incDir or exDir: every handler
writes only the incFile field. -/
theorem applyFlag_fixed (st : Filters) (e : FlagEv) :
    (applyFlag st e).exFile = st.exFile ∧ (applyFlag st e).incDir = st.incDir ∧
      (applyFlag st e).exDir = st.exDir := by
  cases e <;> exact ⟨rfl, rfl, rfl⟩

/-- Folding any sequence of flag-handler invocations leaves exFile, incDir
and exDir untouched. -/
theorem foldl_applyFlag_fixed (evs : List FlagEv) (st : Filters) :
    (evs.foldl applyFlag st).exFile = st.exFile ∧
      (evs.foldl applyFlag st).incDir = st.incDir ∧
      (evs.foldl applyFlag st).exDir = st.exDir := by
  induction evs generalizing st with
  | nil => exact ⟨rfl, rfl, rfl⟩
  | cons e evs ih =>
    simp only [List.foldl_cons]
    have h1 := applyFlag_fixed st e
    have h2 := ih (applyFlag st e)
    exact ⟨h2.1.trans h1.1, h2.2.1.trans h1.2.1, h2.2.2.trans h1.2.2⟩

/-- C10: after every successful ParseArgs, whatever sequence of -match,
-exclude, -match-dir and -exclude-dir flags was supplied, the exFile, incDir
and exDir lists hold exactly their defaults [".*"], ["*"] and [".*"]: all
four handlers assign only into incFile, so user-supplied globs for the other
three flags never reach the list the flag names. -/
theorem C10_glob_flags_never_reach_their_lists (evs : List FlagEv) :
    (parseArgsGlobLists evs).exFile = [".*"] ∧
    (parseArgsGlobLists evs).incDir = ["*"] ∧
    (parseArgsGlobLists evs).exDir = [".*"] := by
  have h := foldl_applyFlag_fixed evs ⟨[], [], [], []⟩
  refine ⟨?_, ?_, ?_⟩ <;>
    simp [parseArgsGlobLists, fillDefaults, h.1, h.2.1, h.2.2]

/-- C3 counterexample: the walk does not always descend into the root
directory: with the default filters and -dir set to ".hidden", the root
directory itself is matched by the default exclude-dir glob ".*" and the
whole walk is pruned — nothing under it is selected — whereas the same tree
rooted at the path "." is descended and its file selected. -/
theorem C3_counterexample :
    walkDirGo defaultFilters ".hidden" (.dir ".hidden" [.file "a.txt"]) = [] ∧
    walkDirGo defaultFilters "." (.dir "." [.file "a.txt"]) = ["a.txt"] := by
  decide

/-- C3 amended: the walk skips include/exclude directory filtering only for a
directory whose visited path is the literal "." — the default -dir argument —
and such a directory is always descended, whatever the filters; a root
directory with any other path is filtered like every other directory: when
its base name matches an exclude-dir glob it is pruned and nothing under it
is selected. -/
theorem C3_root_descent_only_dot (fl : Filters) (n : String) (ch : List FTree)
    (p : String) (hp : p ≠ ".") (hex : matchAny fl.exDir n = true) :
    walkDirGo fl "." (.dir n ch) = visitList fl "." ch ∧
    walkDirGo fl p (.dir n ch) = [] := by
  have hbeq : (p == ".") = false := beq_eq_false_iff_ne.mpr hp
  constructor
  · simp [walkDirGo, visit]
  · simp [walkDirGo, visit, hbeq, hex]

/-- Witness for C3 at concrete inputs. -/
theorem C3_root_descent_only_dot_witness :
    ".hidden" ≠ "." ∧ matchAny defaultFilters.exDir ".hidden" = true ∧
    (walkDirGo defaultFilters "." (.dir ".hidden" [.file "b.txt"]) =
        visitList defaultFilters "." [.file "b.txt"] ∧
      walkDirGo defaultFilters ".hidden" (.dir ".hidden" [.file "b.txt"]) = []) :=
  ⟨by decide, by decide,
    C3_root_descent_only_dot defaultFilters ".hidden" [.file "b.txt"] ".hidden"
      (by decide) (by decide)⟩

/-- C4: the walk tests the exclude globs before the include globs and an
exclude match always wins: a non-root directory whose base name matches any
exclude-dir glob is pruned — not descended into, none of its contents
selected — regardless of the include-dir globs, and a file whose base name
matches any exclude-file glob is never selected, regardless of the
include-file globs; concretely, with filters incDir = ["*"], exDir = ["tmp"],
a directory named "tmp" is never descended into even though "*" includes it. -/
theorem C4_exclude_wins (fl : Filters) (p n m : String) (ch : List FTree)
    (hp : p ≠ ".") (hdir : matchAny fl.exDir n = true) (hfile : matchAny fl.exFile m = true) :
    visit fl p (.dir n ch) = [] ∧
    visit fl p (.file m) = [] ∧
    walkDirGo { defaultFilters with incDir := ["*"], exDir := ["tmp"] } "."
      (.dir "." [.dir "tmp" [.file "a.txt"]]) = [] := by
  have hbeq : (p == ".") = false := beq_eq_false_iff_ne.mpr hp
  exact ⟨by simp [visit, hbeq, hdir], by simp [visit, hfile], by decide⟩

/-- Witness for C4 at concrete inputs: the directory "tmp" and the file
".bak" match both their include and their exclude globs, and are pruned. -/
theorem C4_exclude_wins_witness :
    "tmp" ≠ "." ∧
    matchAny ["tmp"] "tmp" = true ∧ matchAny [".*"] ".bak" = true ∧
    (visit ⟨["*"], [".*"], ["*"], ["tmp"]⟩ "tmp" (.dir "tmp" [.file "a.txt"]) = [] ∧
      visit ⟨["*"], [".*"], ["*"], ["tmp"]⟩ "tmp" (.file ".bak") = [] ∧
      walkDirGo { defaultFilters with incDir := ["*"], exDir := ["tmp"] } "."
        (.dir "." [.dir "tmp" [.file "a.txt"]]) = []) :=
  ⟨by decide, by decide, by decide,
    C4_exclude_wins ⟨["*"], [".*"], ["*"], ["tmp"]⟩ "tmp" "tmp" ".bak" [.file "a.txt"]
      (by decide) (by decide) (by decide)⟩

/-- In dry-run mode the two processFile variants behave identically: the
stat/write differences sit entirely in the non-dry-run branch. -/
theorem processFileB_dryRun_eq (pairs : List (String × String)) (path : String) (f : MFile) :
    processFileB true pairs path f = processFileA true pairs path f := rfl

/-- C7: with the dry-run flag set, processFile (in both variants) performs no
write: its event trace contains no write event, for every pair list, path and
file state, including a failing read; and whenever the read succeeds it
prints the path if and only if the replaced content differs from the original
content. -/
theorem C7_dry_run_frame (pairs : List (String × String)) (path : String) (f : MFile) :
    (∀ e ∈ (processFileA true pairs path f).1, e.isWrite = false) ∧
    (∀ e ∈ (processFileB true pairs path f).1, e.isWrite = false) ∧
    (f.readErr = false →
      ((Ev.print path ∈ (processFileA true pairs path f).1 ↔
          goReplace pairs f.content ≠ f.content) ∧
        (Ev.print path ∈ (processFileB true pairs path f).1 ↔
          goReplace pairs f.content ≠ f.content))) := by
  have hA : ∀ e ∈ (processFileA true pairs path f).1, e.isWrite = false := by
    intro e he
    by_cases hr : f.readErr
    · simp [processFileA, hr] at he
      subst he
      rfl
    · by_cases hc : (f.content != goReplace pairs f.content) = true
      · simp [processFileA, hr, hc] at he
        rcases he with he | he <;> (subst he; rfl)
      · have hc' := eq_false_of_ne_true hc
        simp [processFileA, hr, hc'] at he
        subst he
        rfl
  have hIff : f.readErr = false →
      (Ev.print path ∈ (processFileA true pairs path f).1 ↔
        goReplace pairs f.content ≠ f.content) := by
    intro hr
    by_cases hc : (f.content != goReplace pairs f.content) = true
    · have hne : goReplace pairs f.content ≠ f.content := (bne_iff_ne.mp hc).symm
      simp [processFileA, hr, hc, hne]
    · have hc' := eq_false_of_ne_true hc
      have heq : f.content = goReplace pairs f.content := by
        simpa using hc'
      simp [processFileA, hr, hc', heq.symm]
  exact ⟨hA, by rw [processFileB_dryRun_eq]; exact hA,
    fun hr => ⟨hIff hr, by rw [processFileB_dryRun_eq]; exact hIff hr⟩⟩

/-- Witness for C7 at concrete inputs: a readable file whose content changes
is reported in dry-run mode. -/
theorem C7_dry_run_frame_witness :
    (⟨"ab", 0o644, false, false, false⟩ : MFile).readErr = false ∧
    (Ev.print "f.txt" ∈
        (processFileA true [("a", "b")] "f.txt" ⟨"ab", 0o644, false, false, false⟩).1 ↔
      goReplace [("a", "b")] "ab" ≠ "ab") :=
  ⟨rfl,
    ((C7_dry_run_frame [("a", "b")] "f.txt" ⟨"ab", 0o644, false, false, false⟩).2.2 rfl).1⟩

/-- The Exec loop stops at the first failing file: the run over any list
whose earlier files succeed and whose next file fails equals the run with
everything after the failing file removed, and its error is the failing
file's error — no later file contributes any I/O event. -/
theorem runFiles_stops (dryRun : Bool) (pairs : List (String × String))
    (pre : List (String × MFile)) (path : String) (f : MFile) (rest : List (String × MFile))
    (hfail : (processFileA dryRun pairs path f).2.isSome = true)
    (hok : ∀ qg ∈ pre, (processFileA dryRun pairs qg.1 qg.2).2 = none) :
    runFiles dryRun pairs (pre ++ (path, f) :: rest) =
      runFiles dryRun pairs (pre ++ [(path, f)]) ∧
    (runFiles dryRun pairs (pre ++ (path, f) :: rest)).2 =
      (processFileA dryRun pairs path f).2 := by
  induction pre with
  | nil =>
    obtain ⟨err, herr⟩ := Option.isSome_iff_exists.mp hfail
    constructor
    · simp only [List.nil_append, runFiles, herr]
    · simp only [List.nil_append, runFiles, herr]
  | cons qg pre ih =>
    obtain ⟨q, g⟩ := qg
    have hq : (processFileA dryRun pairs q g).2 = none := hok (q, g) (by simp)
    have ih' := ih fun qg' hm => hok qg' (by simp [hm])
    have h12 : runFiles dryRun pairs (pre.append ((path, f) :: rest)) =
        runFiles dryRun pairs (pre.append [(path, f)]) := ih'.1
    have h22 : (runFiles dryRun pairs (pre.append ((path, f) :: rest))).2 =
        (processFileA dryRun pairs path f).2 := ih'.2
    constructor
    · simp only [List.cons_append, runFiles, hq, ih'.1, h12]
    · simp only [List.cons_append, runFiles, hq, ih'.2, h22]

/-- C8: a read or write error while processing a selected file is fatal: the
Exec loop returns that error immediately and the run is identical to the run
in which the failing file is the last selected file — no later file in the
selected list is read or written; and an error loading the substitution file
makes Exec return it before any traversal or file processing: the run
produces no I/O events at all. -/
theorem C8_errors_abort (e : String) (dryRun : Bool) (fl : Filters) (rootPath : String)
    (root : FTree) (fs : String → MFile) (pairs : List (String × String))
    (pre rest : List (String × MFile)) (path : String) (f : MFile)
    (hfail : (processFileA dryRun pairs path f).2.isSome = true)
    (hok : ∀ qg ∈ pre, (processFileA dryRun pairs qg.1 qg.2).2 = none) :
    execGo (.error e) dryRun fl rootPath root fs = ([], some e) ∧
    runFiles dryRun pairs (pre ++ (path, f) :: rest) =
      runFiles dryRun pairs (pre ++ [(path, f)]) ∧
    (runFiles dryRun pairs (pre ++ (path, f) :: rest)).2 =
      (processFileA dryRun pairs path f).2 :=
  ⟨rfl, (runFiles_stops dryRun pairs pre path f rest hfail hok).1,
    (runFiles_stops dryRun pairs pre path f rest hfail hok).2⟩

/-- Witness for C8 at concrete inputs: after one successful file, a file
whose read fails aborts the run, and a further selected file changes
nothing. -/
theorem C8_errors_abort_witness :
    (processFileA false [] "b" ⟨"y", 0o644, true, false, false⟩).2.isSome = true ∧
    (∀ qg ∈ [("a", (⟨"x", 0o644, false, false, false⟩ : MFile))],
      (processFileA false [] qg.1 qg.2).2 = none) ∧
    (execGo (.error "boom") false defaultFilters "." (.file "a")
        (fun _ => ⟨"x", 0o644, false, false, false⟩) = ([], some "boom") ∧
      runFiles false []
          ([("a", ⟨"x", 0o644, false, false, false⟩)] ++
            ("b", ⟨"y", 0o644, true, false, false⟩) ::
              [("c", ⟨"z", 0o644, false, false, false⟩)]) =
        runFiles false []
          ([("a", ⟨"x", 0o644, false, false, false⟩)] ++
            [("b", ⟨"y", 0o644, true, false, false⟩)]) ∧
      (runFiles false []
          ([("a", ⟨"x", 0o644, false, false, false⟩)] ++
            ("b", ⟨"y", 0o644, true, false, false⟩) ::
              [("c", ⟨"z", 0o644, false, false, false⟩)])).2 =
        (processFileA false [] "b" ⟨"y", 0o644, true, false, false⟩).2) :=
  ⟨by decide, by decide,
    C8_errors_abort "boom" false defaultFilters "." (.file "a")
      (fun _ => ⟨"x", 0o644, false, false, false⟩) []
      [("a", ⟨"x", 0o644, false, false, false⟩)]
      [("c", ⟨"z", 0o644, false, false, false⟩)]
      "b" ⟨"y", 0o644, true, false, false⟩ (by decide) (by decide)⟩

/-- C9: the two processFile variants write identical replaced content for the
same input file and pair list — both write the replacer's output on the
original content — but diverge in the permission argument passed to
os.WriteFile: the replaceall.go variant always passes the fixed mode 0o644,
while the other variant stats the original file and passes the mode obtained
from the stat. -/
theorem C9_write_mode_divergence (pairs : List (String × String)) (path : String) (f : MFile)
    (hr : f.readErr = false) (hw : f.writeErr = false) (hs : f.statErr = false) :
    processFileA false pairs path f =
      ([.read path, .write path (goReplace pairs f.content) 0o644], none) ∧
    processFileB false pairs path f =
      ([.read path, .stat path, .write path (goReplace pairs f.content) f.mode], none) := by
  constructor
  · simp [processFileA, hr, hw]
  · simp [processFileB, hr, hw, hs]

/-- Witness for C9 at a concrete file whose mode 0o600 differs from 0o644:
both variants write the same content, with different permission arguments. -/
theorem C9_write_mode_divergence_witness :
    (⟨"ab", 0o600, false, false, false⟩ : MFile).readErr = false ∧
    (processFileA false [("a", "b")] "f.txt" ⟨"ab", 0o600, false, false, false⟩ =
        ([.read "f.txt", .write "f.txt" (goReplace [("a", "b")] "ab") 0o644], none) ∧
      processFileB false [("a", "b")] "f.txt" ⟨"ab", 0o600, false, false, false⟩ =
        ([.read "f.txt", .stat "f.txt",
            .write "f.txt" (goReplace [("a", "b")] "ab") 0o600], none)) :=
  ⟨rfl,
    C9_write_mode_divergence [("a", "b")] "f.txt" ⟨"ab", 0o600, false, false, false⟩
      rfl rfl rfl⟩

end Kawatte
